import Mathlib

/-!
Shallow embedding of the transaction-log-idb library (IDBBatchedTransactionLog
and IDBSimpleTransactionLog) and proofs about its specification.

The IndexedDB store is modelled as in-memory lists of records with
auto-incrementing integer keys starting at 1 (per IndexedDB key-generator
semantics; an aborted store transaction rolls back both records and the key
generator, and this library never deletes individual records, so keys are
always 1..n in insertion order).  Asynchronous methods are modelled as pure
functions from the instance state (plus, where the source reads the clock, an
explicit timestamp argument) to a result; a thrown error is an explicit error
value.  The optional lifecycle callbacks are modelled as absent (the
constructor default), since they do not affect the log state.
-/

/-- A persisted transaction record of the "txn" (or "simpletxn") object store:
the auto-assigned integer key (injected under keyPath "id"), the timestamp
taken at append time, and the payload. -/
structure TxnRec (T : Type) where
  id : Nat
  time : Nat
  data : T
deriving DecidableEq

/-- A persisted commit record of the "commit" object store: auto-assigned key,
timestamp taken at commit time, and the list of transaction keys written by
this commit, in buffer order. -/
structure CommitRec where
  id : Nat
  time : Nat
  transactions : List Nat
deriving DecidableEq

/-- The resolved commit view returned by getSeqRangeCommits: the commit key and
time together with the referenced transaction records, resolved in the
commit record's original order. -/
structure CommitInfo (T : Type) where
  id : Nat
  time : Nat
  transactions : List (TxnRec T)
deriving DecidableEq

/-- A buffered, not yet committed transaction entry: the source pushes
objects of shape (time: performance.now(), data) onto the in-memory buffer;
no id is assigned until the store add at commit time. -/
structure PendingTxn (T : Type) where
  time : Nat
  data : T
deriving DecidableEq

/-- The errors the two classes can raise, one constructor per distinct thrown
error: the named message constants from the transaction-log package, the
literal "Transaction not found." error of getSeqRangeCommits, the DataError
that IDBKeyRange.bound raises when lower is greater than upper, and the
InvalidState error that the store's abort() raises when the transaction is
already finished. -/
inductive LogErr
  | logClosed
  | alreadyOpen
  | alreadyClosed
  | cannotClearWhileOpen
  | invalidSequenceId
  | failedToCommitTransactions
  | transactionNotFound
  | dataError
  | abortInvalidState
deriving DecidableEq

/-- An IndexedDB key range over the integer keys, as used by the source:
either IDBKeyRange.lowerBound(lo, false) or IDBKeyRange.bound(lo, hi, false,
false), both closed. -/
inductive KeyRange
  | lowerBound (lo : Int)
  | bound (lo : Int) (hi : Int)
deriving DecidableEq

/-- Membership of a stored key in a key range (both range forms are closed). -/
def KeyRange.mem (r : KeyRange) (k : Nat) : Bool :=
  match r with
  | .lowerBound lo => lo ≤ (k : Int)
  | .bound lo hi => lo ≤ (k : Int) && (k : Int) ≤ hi

/-- Range construction as written in the source: if (finishId) then
IDBKeyRange.bound(startId, finishId) else IDBKeyRange.lowerBound(startId).
A provided finishId of 0 is falsy in JavaScript, so it selects the open-ended
lower bound; IDBKeyRange.bound throws DataError when lower is greater than
upper. -/
def mkRange (startId : Int) (finishId : Option Int) : Except LogErr KeyRange :=
  match finishId with
  | some f =>
    if f ≠ 0 then
      if startId ≤ f then .ok (.bound startId f) else .error .dataError
    else .ok (.lowerBound startId)
  | none => .ok (.lowerBound startId)

/-- The durable content behind one database name for the batched variant: the
"txn" and "commit" object stores, each a list in ascending key order. -/
structure BStore (T : Type) where
  txns : List (TxnRec T)
  commits : List CommitRec
deriving DecidableEq

/-- Records produced by adding the buffered entries to the "txn" store in
buffer order, with keys assigned consecutively by the store's key generator
starting at nextId. -/
def addTxnsFrom {T : Type} (nextId : Nat) : List (PendingTxn T) → List (TxnRec T)
  | [] => []
  | p :: ps => ⟨nextId, p.time, p.data⟩ :: addTxnsFrom (nextId + 1) ps

/-- Instance state of IDBBatchedTransactionLog: whether the db handle is
non-null, the in-memory buffer, and the durable store reachable through the
instance's database name. -/
structure BLog (T : Type) where
  dbOpen : Bool
  buffer : List (PendingTxn T)
  store : BStore T
deriving DecidableEq

/-- A freshly constructed IDBBatchedTransactionLog on a database name that has
never been used: closed handle, empty buffer, empty store. -/
def BLog.fresh (T : Type) : BLog T := ⟨false, [], ⟨[], []⟩⟩

/-- A freshly constructed IDBBatchedTransactionLog instance on a name whose
durable store already holds s: closed handle and empty buffer. -/
def BLog.freshOn (T : Type) (s : BStore T) : BLog T := ⟨false, [], s⟩

/-- isOpen(): truthiness of the db handle. -/
def BLog.isOpenQ {T : Type} (ls : BLog T) : Bool := ls.dbOpen

/-- open(): throws AlreadyOpen when the handle is set, otherwise opens the
database (creating the object stores on first use, which leaves existing
content untouched) and sets the handle. -/
def BLog.openLog {T : Type} (ls : BLog T) : BLog T × Option LogErr :=
  if ls.dbOpen then (ls, some .alreadyOpen)
  else ({ ls with dbOpen := true }, none)

/-- close(): throws AlreadyClosed when the handle is null, otherwise closes
the handle and nulls it.  Neither the durable store nor the in-memory buffer
is touched. -/
def BLog.close {T : Type} (ls : BLog T) : BLog T × Option LogErr :=
  if !ls.dbOpen then (ls, some .alreadyClosed)
  else ({ ls with dbOpen := false }, none)

/-- clear(): throws CannotClearWhileOpen when the handle is set, otherwise
deletes the database (the buffer field is not touched). -/
def BLog.clear {T : Type} (ls : BLog T) : BLog T × Option LogErr :=
  if ls.dbOpen then (ls, some .cannotClearWhileOpen)
  else ({ ls with store := ⟨[], []⟩ }, none)

/-- countCommits(): count of the "commit" store. -/
def BLog.countCommits {T : Type} (ls : BLog T) : Except LogErr Nat :=
  if !ls.dbOpen then .error .logClosed
  else .ok ls.store.commits.length

/-- countTransactions(): count of the "txn" store. -/
def BLog.countTransactions {T : Type} (ls : BLog T) : Except LogErr Nat :=
  if !ls.dbOpen then .error .logClosed
  else .ok ls.store.txns.length

/-- append(data): synchronous; throws LogClosed when the handle is null,
otherwise pushes (time: now, data) onto the in-memory buffer.  The store is
not touched. -/
def BLog.append {T : Type} (ls : BLog T) (now : Nat) (d : T) : BLog T × Option LogErr :=
  if !ls.dbOpen then (ls, some .logClosed)
  else ({ ls with buffer := ls.buffer ++ [⟨now, d⟩] }, none)

/-- The possible behaviors of the single readwrite store transaction opened by
commit() over the "commit" and "txn" stores.  success: every add request
resolves and the transaction completes durably.  failCreate: creating the
store transaction itself throws (e.g. the underlying connection was closed by
a versionchange), so nothing is written and the local tx variable stays
undefined.  failDone: every add request resolves (so commitId is assigned)
but the transaction aborts before completing durably, so tx.done rejects; the
abort rolls back every write of this transaction and the key generators. -/
inductive StoreOutcome
  | success
  | failCreate
  | failDone
deriving DecidableEq

/-- commit(): throws LogClosed when the handle is null.  Otherwise, in one
readwrite store transaction: add every buffered entry to "txn" in buffer
order collecting the assigned keys, add a commit record (time: now,
transactions: those keys) to "commit", and await completion.  Any exception
in that block is caught and tx?.abort() is invoked.  On failCreate nothing
was written, tx is undefined so no abort call is made, commitId is unset and
the method throws FailedToCommitTransactions; the buffer is kept.  On
failDone the transaction is already finished when the catch block calls
tx.abort(), so abort() itself throws the store's InvalidState error, which
escapes the catch block and the method; commitId was assigned, so the guard
that throws FailedToCommitTransactions is not reached, but neither is the
buffer reset; the aborted store transaction leaves the durable store
unchanged.  Only on success is the buffer reset to empty. -/
def BLog.commit {T : Type} (ls : BLog T) (now : Nat) (o : StoreOutcome) :
    BLog T × Option LogErr :=
  if !ls.dbOpen then (ls, some .logClosed)
  else
    match o with
    | .success =>
      let newTxns := addTxnsFrom (ls.store.txns.length + 1) ls.buffer
      ({ ls with
          buffer := [],
          store := ⟨ls.store.txns ++ newTxns,
                    ls.store.commits ++
                      [⟨ls.store.commits.length + 1, now, newTxns.map TxnRec.id⟩]⟩ },
        none)
    | .failCreate => (ls, some .failedToCommitTransactions)
    | .failDone => (ls, some .abortInvalidState)

/-- The cursor loop shared by both replay() implementations: walk the records
in ascending key order, invoking the callback on each record's data.  The
callback is modelled as returning some e when it throws e and none when it
returns normally.  The result is the list of data values the callback was
invoked on, in order, together with the exception that escaped the loop, if
any; a thrown exception stops the scan immediately after the invocation that
threw. -/
def replayCalls {T E : Type} (f : T → Option E) : List (TxnRec T) → List T × Option E
  | [] => ([], none)
  | t :: ts =>
    match f t.data with
    | some e => ([t.data], some e)
    | none =>
      let r := replayCalls f ts
      (t.data :: r.1, r.2)

/-- replay(callback): throws LogClosed when the handle is null, otherwise
opens a readonly cursor over the whole "txn" store in ascending key order and
invokes the callback once per record with the record's data; an exception
from the callback propagates and aborts the remaining scan. -/
def BLog.replay {T E : Type} (ls : BLog T) (f : T → Option E) :
    Except LogErr (List T × Option E) :=
  if !ls.dbOpen then .error .logClosed
  else .ok (replayCalls f ls.store.txns)

/-- The inner loop of getSeqRangeCommits over one commit's transaction id
list: get("txn", transactionId) for each referenced id in order, throwing
"Transaction not found." as soon as a lookup comes back undefined. -/
def resolveTxns {T : Type} (s : BStore T) : List Nat → Except LogErr (List (TxnRec T))
  | [] => .ok []
  | tid :: tids =>
    match s.txns.find? (fun t => t.id == tid) with
    | none => .error .transactionNotFound
    | some t => do
      let rest ← resolveTxns s tids
      .ok (t :: rest)

/-- The outer loop of getSeqRangeCommits: for each collected commit record in
cursor (ascending key) order, resolve its transaction ids and build the
CommitInfo; a resolution failure propagates, so no partial list is returned. -/
def collectCommits {T : Type} (s : BStore T) : List CommitRec → Except LogErr (List (CommitInfo T))
  | [] => .ok []
  | c :: cs => do
    let txs ← resolveTxns s c.transactions
    let rest ← collectCommits s cs
    .ok (⟨c.id, c.time, txs⟩ :: rest)

/-- getSeqRangeCommits(startId, finishId?): throws LogClosed when the handle
is null, then InvalidSequenceId when startId is less than 1; builds the key
range exactly as the source does, collects the commit records whose key lies
in the range via an ascending cursor, and resolves each commit's transaction
ids fail-fast. -/
def BLog.getSeqRangeCommits {T : Type} (ls : BLog T) (startId : Int) (finishId : Option Int) :
    Except LogErr (List (CommitInfo T)) :=
  if !ls.dbOpen then .error .logClosed
  else if startId < 1 then .error .invalidSequenceId
  else do
    let range ← mkRange startId finishId
    collectCommits ls.store (ls.store.commits.filter (fun c => range.mem c.id))

/-- getSeqRangeTransactions(startId, finishId?): throws LogClosed when the
handle is null; there is no validation of startId.  Builds the key range as
the source does and collects the "txn" records whose key lies in the range
via an ascending cursor. -/
def BLog.getSeqRangeTransactions {T : Type} (ls : BLog T) (startId : Int) (finishId : Option Int) :
    Except LogErr (List (TxnRec T)) :=
  if !ls.dbOpen then .error .logClosed
  else do
    let range ← mkRange startId finishId
    .ok (ls.store.txns.filter (fun t => range.mem t.id))

/-- Instance state of IDBSimpleTransactionLog: the db handle flag and the
durable "simpletxn" store behind the instance's database name. -/
structure SLog (T : Type) where
  dbOpen : Bool
  txns : List (TxnRec T)
deriving DecidableEq

/-- A freshly constructed IDBSimpleTransactionLog on a never-used name. -/
def SLog.fresh (T : Type) : SLog T := ⟨false, []⟩

/-- A freshly constructed IDBSimpleTransactionLog instance on a name whose
durable store already holds the given records. -/
def SLog.freshOn (T : Type) (txns : List (TxnRec T)) : SLog T := ⟨false, txns⟩

/-- isOpen() of the simple variant. -/
def SLog.isOpenQ {T : Type} (ls : SLog T) : Bool := ls.dbOpen

/-- open() of the simple variant. -/
def SLog.openLog {T : Type} (ls : SLog T) : SLog T × Option LogErr :=
  if ls.dbOpen then (ls, some .alreadyOpen)
  else ({ ls with dbOpen := true }, none)

/-- close() of the simple variant. -/
def SLog.close {T : Type} (ls : SLog T) : SLog T × Option LogErr :=
  if !ls.dbOpen then (ls, some .alreadyClosed)
  else ({ ls with dbOpen := false }, none)

/-- clear() of the simple variant. -/
def SLog.clear {T : Type} (ls : SLog T) : SLog T × Option LogErr :=
  if ls.dbOpen then (ls, some .cannotClearWhileOpen)
  else ({ ls with txns := [] }, none)

/-- countTransactions() of the simple variant. -/
def SLog.countTransactions {T : Type} (ls : SLog T) : Except LogErr Nat :=
  if !ls.dbOpen then .error .logClosed
  else .ok ls.txns.length

/-- append(data) of the simple variant: durable before the call resolves; one
readwrite store transaction adds (time: now, data), the store assigning the
next key. -/
def SLog.append {T : Type} (ls : SLog T) (now : Nat) (d : T) : SLog T × Option LogErr :=
  if !ls.dbOpen then (ls, some .logClosed)
  else ({ ls with txns := ls.txns ++ [⟨ls.txns.length + 1, now, d⟩] }, none)

/-- replay(callback) of the simple variant: same cursor loop as the batched
variant, over the "simpletxn" store. -/
def SLog.replay {T E : Type} (ls : SLog T) (f : T → Option E) :
    Except LogErr (List T × Option E) :=
  if !ls.dbOpen then .error .logClosed
  else .ok (replayCalls f ls.txns)

/-- getSeqRangeTransactions of the simple variant: same shape as the batched
variant, and likewise with no validation of startId. -/
def SLog.getSeqRangeTransactions {T : Type} (ls : SLog T) (startId : Int) (finishId : Option Int) :
    Except LogErr (List (TxnRec T)) :=
  if !ls.dbOpen then .error .logClosed
  else do
    let range ← mkRange startId finishId
    .ok (ls.txns.filter (fun t => range.mem t.id))

/-- An operation of a batched-log session used to relate replay output to
append order: an append of a payload or a successful commit, each carrying
the clock value the source would read. -/
inductive LogOp (T : Type)
  | app (time : Nat) (d : T)
  | com (time : Nat)

/-- Run a list of session operations against a batched-log instance (appends,
and commits whose store transaction succeeds). -/
def BLog.runOps {T : Type} (ls : BLog T) : List (LogOp T) → BLog T
  | [] => ls
  | .app t d :: ops => ((ls.append t d).1).runOps ops
  | .com t :: ops => ((ls.commit t .success).1).runOps ops

/-- Run a list of appends against a simple-log instance. -/
def SLog.runAppends {T : Type} (ls : SLog T) : List (Nat × T) → SLog T
  | [] => ls
  | (t, d) :: rest => ((ls.append t d).1).runAppends rest

/-- Modelled from the spec (the expected value a test would compute, not code
of the repository): the sequence of data values belonging to committed
appends, in append order, given the data of entries already buffered before
the operations run; entries still buffered after the last commit are
excluded. -/
def specCommittedData {T : Type} : List (LogOp T) → List T → List T
  | [], _ => []
  | .app _ d :: ops, acc => specCommittedData ops (acc ++ [d])
  | .com _ :: ops, acc => acc ++ specCommittedData ops []

/-- The key invariant the store maintains for a record list: the keys are
exactly 1..n in list order (auto-increment from 1, no individual deletes). -/
def txnIdsOK {T : Type} (l : List (TxnRec T)) : Prop :=
  l.map TxnRec.id = List.range' 1 l.length

/-- Store well-formedness for the batched variant: both object stores carry
keys 1..n in order. -/
def BStore.WF {T : Type} (s : BStore T) : Prop :=
  txnIdsOK s.txns ∧ s.commits.map CommitRec.id = List.range' 1 s.commits.length

instance {T : Type} [DecidableEq T] (l : List (TxnRec T)) : Decidable (txnIdsOK l) := by
  unfold txnIdsOK; infer_instance

instance {T : Type} [DecidableEq T] (s : BStore T) : Decidable s.WF := by
  unfold BStore.WF; exact instDecidableAnd

/-- Specification predicate for claim C1 as amended: commit() succeeds exactly
when the store transaction succeeds; any failure leaves the instance state
(buffer) and the durable store unchanged; a failure to create the store
transaction surfaces as FailedToCommitTransactions, while an abort at
completion surfaces as the store's InvalidState abort error; on success the
buffer is cleared and the two stores grow by the buffer length and by one. -/
def CommitAtomicSpec (T : Type) (bl : BLog T) (now : Nat) (o : StoreOutcome) : Prop :=
  ((bl.commit now o).2 = none ↔ o = .success) ∧
  (∀ e, (bl.commit now o).2 = some e → (bl.commit now o).1 = bl) ∧
  (o = .failCreate → (bl.commit now o).2 = some .failedToCommitTransactions) ∧
  (o = .failDone → (bl.commit now o).2 = some .abortInvalidState) ∧
  (o = .success →
    (bl.commit now o).1.buffer = [] ∧
    (bl.commit now o).1.store.txns.length = bl.store.txns.length + bl.buffer.length ∧
    (bl.commit now o).1.store.commits.length = bl.store.commits.length + 1)

/-- Specification predicate for claim C2 as amended: close() on an open log
succeeds, commits nothing (the durable store is unchanged), and does not
discard the buffer; consequently reopening the same instance and committing
persists exactly the entries that were buffered before the close, appended
after the previously persisted data. -/
def CloseKeepsBufferSpec (T : Type) (bl : BLog T) (now : Nat) : Prop :=
  bl.close.2 = none ∧
  bl.close.1.store = bl.store ∧
  bl.close.1.buffer = bl.buffer ∧
  ((bl.close.1.openLog.1.commit now .success).1.store.txns.map TxnRec.data
    = bl.store.txns.map TxnRec.data ++ bl.buffer.map PendingTxn.data)

/-- Specification predicate for claim C3 as amended: on an open log with a
start below 1, getSeqRangeTransactions of either variant does not fail; with
the finish omitted it returns the whole store; only getSeqRangeCommits
rejects the start with InvalidSequenceId. -/
def NoStartValidationSpec (T : Type) (bl : BLog T) (sl : SLog T) (a : Int) : Prop :=
  bl.getSeqRangeTransactions a none = .ok bl.store.txns ∧
  sl.getSeqRangeTransactions a none = .ok sl.txns ∧
  bl.getSeqRangeCommits a none = .error .invalidSequenceId

/-- Specification predicate for claim C5: replay with a non-throwing callback
invokes it once per stored record in store order; any replay trace is the
data of a prefix of the store whose ids are strictly increasing; a throwing
callback stops the scan right after the first record whose callback threw,
and the exception propagates; and for any session of appends and successful
commits run from a fresh instance, the replay trace equals the appended data
in append order restricted to committed appends (all of them, for the simple
variant), the store keys being 1..n in order. -/
def ReplaySpec (T E : Type) (bl : BLog T) (sl : SLog T) (f g : T → Option E)
    (ops : List (LogOp T)) (ds : List (Nat × T)) : Prop :=
  (bl.replay g = .ok (bl.store.txns.map TxnRec.data, none)) ∧
  (∀ tr e, bl.replay f = .ok (tr, e) →
    ∃ k, tr = (bl.store.txns.take k).map TxnRec.data ∧
      ((bl.store.txns.take k).map TxnRec.id).Pairwise (· < ·)) ∧
  (∀ tr e0, bl.replay f = .ok (tr, some e0) →
    ∃ pre t post, bl.store.txns = pre ++ t :: post ∧
      tr = pre.map TxnRec.data ++ [t.data] ∧ f t.data = some e0 ∧
      ∀ u ∈ pre, f u.data = none) ∧
  (sl.replay g = .ok (sl.txns.map TxnRec.data, none)) ∧
  (∀ tr e, sl.replay f = .ok (tr, e) →
    ∃ k, tr = (sl.txns.take k).map TxnRec.data ∧
      ((sl.txns.take k).map TxnRec.id).Pairwise (· < ·)) ∧
  (∀ tr e0, sl.replay f = .ok (tr, some e0) →
    ∃ pre t post, sl.txns = pre ++ t :: post ∧
      tr = pre.map TxnRec.data ++ [t.data] ∧ f t.data = some e0 ∧
      ∀ u ∈ pre, f u.data = none) ∧
  (((BLog.fresh T).openLog.1.runOps ops).replay g = .ok (specCommittedData ops [], none)) ∧
  txnIdsOK ((BLog.fresh T).openLog.1.runOps ops).store.txns ∧
  (((SLog.fresh T).openLog.1.runAppends ds).replay g = .ok (ds.map Prod.snd, none)) ∧
  txnIdsOK ((SLog.fresh T).openLog.1.runAppends ds).txns

/-- Specification predicate for claim C6 as amended: on an open well-formed
log with 1 ≤ a, a bounded call with a ≤ b returns exactly the stored records
with a ≤ id ≤ b in ascending id order, and an omitted finish returns exactly
those with a ≤ id in ascending id order, in both variants. -/
def TxnRangeSpec (T : Type) (bl : BLog T) (sl : SLog T) (a b : Int) : Prop :=
  (a ≤ b →
    ∃ l, bl.getSeqRangeTransactions a (some b) = .ok l ∧
      (∀ t, t ∈ l ↔ t ∈ bl.store.txns ∧ a ≤ (t.id : Int) ∧ (t.id : Int) ≤ b) ∧
      (l.map TxnRec.id).Pairwise (· < ·)) ∧
  (∃ l, bl.getSeqRangeTransactions a none = .ok l ∧
    (∀ t, t ∈ l ↔ t ∈ bl.store.txns ∧ a ≤ (t.id : Int)) ∧
    (l.map TxnRec.id).Pairwise (· < ·)) ∧
  (a ≤ b →
    ∃ l, sl.getSeqRangeTransactions a (some b) = .ok l ∧
      (∀ t, t ∈ l ↔ t ∈ sl.txns ∧ a ≤ (t.id : Int) ∧ (t.id : Int) ≤ b) ∧
      (l.map TxnRec.id).Pairwise (· < ·)) ∧
  (∃ l, sl.getSeqRangeTransactions a none = .ok l ∧
    (∀ t, t ∈ l ↔ t ∈ sl.txns ∧ a ≤ (t.id : Int)) ∧
    (l.map TxnRec.id).Pairwise (· < ·))

/-- Specification predicate for claim C7 as amended: a start below 1 fails
with InvalidSequenceId; otherwise, whenever the key-range construction
succeeds, if every transaction id referenced by an in-range commit resolves
then the call returns one CommitInfo per in-range commit in ascending
commit-id order, each commit's referenced ids resolved to full records in
the commit's original order, and if some in-range commit references an
unresolvable id the call fails with the transaction-not-found error rather
than returning a partial result. -/
def CommitsRangeSpec (T : Type) (bl : BLog T) (a : Int) (b : Option Int) : Prop :=
  (a < 1 → bl.getSeqRangeCommits a b = .error .invalidSequenceId) ∧
  (1 ≤ a → ∀ r, mkRange a b = .ok r →
    ((∀ c ∈ bl.store.commits, r.mem c.id = true →
        ∀ tid ∈ c.transactions, ∃ t ∈ bl.store.txns, t.id = tid) →
      ∃ l, bl.getSeqRangeCommits a b = .ok l ∧
        l.map CommitInfo.id
          = (bl.store.commits.filter (fun c => r.mem c.id)).map CommitRec.id ∧
        (l.map CommitInfo.id).Pairwise (· < ·) ∧
        ∀ ci ∈ l, ∃ c ∈ bl.store.commits,
          ci.id = c.id ∧ ci.time = c.time ∧
          ci.transactions.map TxnRec.id = c.transactions ∧
          ∀ t ∈ ci.transactions, t ∈ bl.store.txns) ∧
    ((∃ c ∈ bl.store.commits, r.mem c.id = true ∧
        ∃ tid ∈ c.transactions, ∀ t ∈ bl.store.txns, t.id ≠ tid) →
      bl.getSeqRangeCommits a b = .error .transactionNotFound))

/-- Specification predicate for claim C8: commit() on an open log with an
empty buffer succeeds, appends one commit record with an empty transactions
list, increments countCommits and leaves countTransactions unchanged. -/
def EmptyCommitSpec (T : Type) (bl : BLog T) (now : Nat) : Prop :=
  (bl.commit now .success).2 = none ∧
  (bl.commit now .success).1.store.commits
    = bl.store.commits ++ [⟨bl.store.commits.length + 1, now, []⟩] ∧
  (bl.commit now .success).1.countCommits = .ok (bl.store.commits.length + 1) ∧
  (bl.commit now .success).1.countTransactions = bl.countTransactions

/-- Specification predicate for claim C9: starting from a closed instance,
open-close-open yields an instance that agrees with a freshly constructed and
opened instance over the same durable content on countTransactions and on
every replay, in both variants. -/
def RoundTripSpec (T : Type) (bl : BLog T) (sl : SLog T) : Prop :=
  (∀ (E : Type) (f : T → Option E),
    bl.openLog.1.close.1.openLog.1.replay f = (BLog.freshOn T bl.store).openLog.1.replay f) ∧
  bl.openLog.1.close.1.openLog.1.countTransactions
    = (BLog.freshOn T bl.store).openLog.1.countTransactions ∧
  (∀ (E : Type) (f : T → Option E),
    sl.openLog.1.close.1.openLog.1.replay f = (SLog.freshOn T sl.txns).openLog.1.replay f) ∧
  sl.openLog.1.close.1.openLog.1.countTransactions
    = (SLog.freshOn T sl.txns).openLog.1.countTransactions

theorem addTxnsFrom_map_data {T : Type} (buf : List (PendingTxn T)) :
    ∀ n, (addTxnsFrom n buf).map TxnRec.data = buf.map PendingTxn.data := by
  induction buf with
  | nil => intro n; rfl
  | cons p ps ih => intro n; simp [addTxnsFrom, ih]

theorem addTxnsFrom_map_id {T : Type} (buf : List (PendingTxn T)) :
    ∀ n, (addTxnsFrom n buf).map TxnRec.id = List.range' n buf.length := by
  induction buf with
  | nil => intro n; rfl
  | cons p ps ih => intro n; simp [addTxnsFrom, ih, List.range'_succ]

theorem addTxnsFrom_length {T : Type} (buf : List (PendingTxn T)) :
    ∀ n, (addTxnsFrom n buf).length = buf.length := by
  induction buf with
  | nil => intro n; rfl
  | cons p ps ih => intro n; simp [addTxnsFrom, ih]

theorem range'_add_one (s m n : Nat) :
    List.range' s m ++ List.range' (s + m) n = List.range' s (m + n) := by
  have h := List.range'_append s m n 1
  rw [Nat.one_mul, Nat.add_comm n m] at h
  exact h

theorem txnIdsOK_commit {T : Type} {l : List (TxnRec T)} (buf : List (PendingTxn T))
    (h : txnIdsOK l) : txnIdsOK (l ++ addTxnsFrom (l.length + 1) buf) := by
  unfold txnIdsOK at h ⊢
  have hr := range'_add_one 1 l.length buf.length
  rw [Nat.add_comm 1 l.length] at hr
  rw [List.map_append, h, addTxnsFrom_map_id, List.length_append, addTxnsFrom_length, hr]

theorem map_id_snoc_range' {α : Type} (g : α → Nat) (l : List α) (x : α)
    (h : l.map g = List.range' 1 l.length) (hx : g x = l.length + 1) :
    (l ++ [x]).map g = List.range' 1 (l.length + 1) := by
  have hr := range'_add_one 1 l.length 1
  rw [Nat.add_comm 1 l.length] at hr
  rw [List.map_append, h, ← hr]
  simp [hx, List.range']

theorem pairwise_map_of_range' {α : Type} (g : α → Nat) (l : List α)
    (h : l.map g = List.range' 1 l.length) : (l.map g).Pairwise (· < ·) := by
  rw [h]
  exact List.pairwise_lt_range' 1 l.length

theorem pairwise_filter_map {α : Type} (g : α → Nat) (l : List α) (p : α → Bool)
    (h : l.map g = List.range' 1 l.length) :
    ((l.filter p).map g).Pairwise (· < ·) :=
  (pairwise_map_of_range' g l h).sublist ((List.filter_sublist l).map g)

theorem pairwise_take_map {α : Type} (g : α → Nat) (l : List α) (k : Nat)
    (h : l.map g = List.range' 1 l.length) :
    ((l.take k).map g).Pairwise (· < ·) :=
  (pairwise_map_of_range' g l h).sublist ((List.take_sublist k l).map g)

theorem replayCalls_no_throw {T E : Type} (g : T → Option E) (hg : ∀ t, g t = none) :
    ∀ l : List (TxnRec T), replayCalls g l = (l.map TxnRec.data, none) := by
  intro l
  induction l with
  | nil => rfl
  | cons t ts ih => simp [replayCalls, hg, ih]

theorem replayCalls_take {T E : Type} (f : T → Option E) :
    ∀ l : List (TxnRec T), ∃ k, (replayCalls f l).1 = (l.take k).map TxnRec.data := by
  intro l
  induction l with
  | nil => exact ⟨0, rfl⟩
  | cons t ts ih =>
    cases hf : f t.data with
    | some e => exact ⟨1, by simp [replayCalls, hf]⟩
    | none =>
      obtain ⟨k, hk⟩ := ih
      exact ⟨k + 1, by simp [replayCalls, hf, hk]⟩

theorem replayCalls_throw {T E : Type} (f : T → Option E) :
    ∀ (l : List (TxnRec T)) (tr : List T) (e0 : E),
      replayCalls f l = (tr, some e0) →
      ∃ pre t post, l = pre ++ t :: post ∧ tr = pre.map TxnRec.data ++ [t.data] ∧
        f t.data = some e0 ∧ ∀ u ∈ pre, f u.data = none := by
  intro l
  induction l with
  | nil => intro tr e0 h; simp [replayCalls] at h
  | cons t ts ih =>
    intro tr e0 h
    cases hf : f t.data with
    | some e =>
      simp [replayCalls, hf] at h
      exact ⟨[], t, ts, rfl, by simp [h.1], by rw [hf, h.2], by simp⟩
    | none =>
      simp [replayCalls, hf] at h
      obtain ⟨pre, u, post, hsplit, htr, hu, hpre⟩ :=
        ih (replayCalls f ts).1 e0 (by rw [← h.2])
      refine ⟨t :: pre, u, post, by simp [hsplit], ?_, hu, ?_⟩
      · simp [← h.1, htr]
      · intro v hv
        rcases List.mem_cons.mp hv with rfl | hv2
        · exact hf
        · exact hpre v hv2

theorem mkRange_cases (s : Int) (fi : Option Int) :
    mkRange s fi = .error .dataError ∨ ∃ r, mkRange s fi = .ok r := by
  cases fi with
  | none => exact Or.inr ⟨.lowerBound s, rfl⟩
  | some f =>
    by_cases h0 : f = 0
    · exact Or.inr ⟨.lowerBound s, by simp [mkRange, h0]⟩
    · by_cases hle : s ≤ f
      · exact Or.inr ⟨.bound s f, by simp [mkRange, h0, hle]⟩
      · exact Or.inl (by simp [mkRange, h0, hle])

theorem resolveTxns_cases {T : Type} (s : BStore T) :
    ∀ tids, resolveTxns s tids = .error .transactionNotFound ∨
      ∃ l, resolveTxns s tids = .ok l := by
  intro tids
  induction tids with
  | nil => exact Or.inr ⟨[], rfl⟩
  | cons tid tids ih =>
    cases hf : s.txns.find? (fun t => t.id == tid) with
    | none => exact Or.inl (by simp [resolveTxns, hf])
    | some t =>
      rcases ih with h | ⟨l, h⟩
      · exact Or.inl (by simp [resolveTxns, hf, h, Bind.bind, Except.bind])
      · exact Or.inr ⟨t :: l, by simp [resolveTxns, hf, h, Bind.bind, Except.bind]⟩

theorem resolveTxns_ok {T : Type} (s : BStore T) :
    ∀ tids txs, resolveTxns s tids = .ok txs →
      txs.map TxnRec.id = tids ∧ ∀ t ∈ txs, t ∈ s.txns := by
  intro tids
  induction tids with
  | nil =>
    intro txs h
    simp [resolveTxns] at h
    subst h
    simp
  | cons tid tids ih =>
    intro txs h
    cases hf : s.txns.find? (fun t => t.id == tid) with
    | none => simp [resolveTxns, hf] at h
    | some t =>
      rcases hr : resolveTxns s tids with e | l
      · rw [resolveTxns] at h
        simp [hf, hr, Bind.bind, Except.bind] at h
      · rw [resolveTxns] at h
        simp [hf, hr, Bind.bind, Except.bind] at h
        subst h
        obtain ⟨h1, h2⟩ := ih l hr
        have hid : t.id = tid := by simpa using List.find?_some hf
        refine ⟨by simp [h1, hid], ?_⟩
        intro u hu
        rcases List.mem_cons.mp hu with rfl | hu2
        · exact List.mem_of_find?_eq_some hf
        · exact h2 u hu2

theorem resolveTxns_isOk {T : Type} (s : BStore T) :
    ∀ tids, (∀ tid ∈ tids, ∃ t ∈ s.txns, t.id = tid) →
      ∃ txs, resolveTxns s tids = .ok txs := by
  intro tids
  induction tids with
  | nil => intro _; exact ⟨[], rfl⟩
  | cons tid tids ih =>
    intro h
    obtain ⟨t0, ht0, hid⟩ := h tid (by simp)
    cases hf : s.txns.find? (fun t => t.id == tid) with
    | none =>
      rw [List.find?_eq_none] at hf
      exact absurd (by simpa using hid) (by simpa using hf t0 ht0)
    | some t =>
      obtain ⟨txs, hr⟩ := ih (fun x hx => h x (by simp [hx]))
      exact ⟨t :: txs, by simp [resolveTxns, hf, hr, Bind.bind, Except.bind]⟩

theorem collectCommits_cases {T : Type} (s : BStore T) :
    ∀ cs, collectCommits s cs = .error .transactionNotFound ∨
      ∃ l, collectCommits s cs = .ok l := by
  intro cs
  induction cs with
  | nil => exact Or.inr ⟨[], rfl⟩
  | cons c cs ih =>
    rcases resolveTxns_cases s c.transactions with h | ⟨txs, h⟩
    · exact Or.inl (by simp [collectCommits, h, Bind.bind, Except.bind])
    · rcases ih with h2 | ⟨l, h2⟩
      · exact Or.inl (by simp [collectCommits, h, h2, Bind.bind, Except.bind])
      · exact Or.inr ⟨⟨c.id, c.time, txs⟩ :: l,
          by simp [collectCommits, h, h2, Bind.bind, Except.bind]⟩

theorem collectCommits_ok {T : Type} (s : BStore T) :
    ∀ cs l, collectCommits s cs = .ok l →
      l.map CommitInfo.id = cs.map CommitRec.id ∧
      ∀ ci ∈ l, ∃ c ∈ cs, ci.id = c.id ∧ ci.time = c.time ∧
        ci.transactions.map TxnRec.id = c.transactions ∧
        ∀ t ∈ ci.transactions, t ∈ s.txns := by
  intro cs
  induction cs with
  | nil =>
    intro l h
    simp [collectCommits] at h
    subst h
    simp
  | cons c cs ih =>
    intro l h
    rcases hr : resolveTxns s c.transactions with e | txs
    · rw [collectCommits] at h
      simp [hr, Bind.bind, Except.bind] at h
    · rcases hc : collectCommits s cs with e | rest
      · rw [collectCommits] at h
        simp [hr, hc, Bind.bind, Except.bind] at h
      · rw [collectCommits] at h
        simp [hr, hc, Bind.bind, Except.bind] at h
        subst h
        obtain ⟨hm, hrec⟩ := ih rest hc
        obtain ⟨hids, hmem⟩ := resolveTxns_ok s c.transactions txs hr
        refine ⟨by simp [hm], ?_⟩
        intro ci hci
        rcases List.mem_cons.mp hci with rfl | hci2
        · exact ⟨c, by simp, rfl, rfl, hids, hmem⟩
        · obtain ⟨c2, hc2, rest2⟩ := hrec ci hci2
          exact ⟨c2, by simp [hc2], rest2⟩

theorem collectCommits_resolvable {T : Type} (s : BStore T) :
    ∀ cs l, collectCommits s cs = .ok l →
      ∀ c ∈ cs, ∀ tid ∈ c.transactions, ∃ t ∈ s.txns, t.id = tid := by
  intro cs
  induction cs with
  | nil =>
    intro l _ c hc
    simp at hc
  | cons c0 cs ih =>
    intro l h c hc
    rcases hr : resolveTxns s c0.transactions with e | txs
    · rw [collectCommits] at h
      simp [hr, Bind.bind, Except.bind] at h
    · rcases hcc : collectCommits s cs with e | rest
      · rw [collectCommits] at h
        simp [hr, hcc, Bind.bind, Except.bind] at h
      · rcases List.mem_cons.mp hc with rfl | hc2
        · obtain ⟨hids, hmem⟩ := resolveTxns_ok s c.transactions txs hr
          intro tid htid
          rw [← hids] at htid
          obtain ⟨t, ht, rfl⟩ := List.mem_map.mp htid
          exact ⟨t, hmem t ht, rfl⟩
        · exact ih rest hcc c hc2

theorem collectCommits_isOk {T : Type} (s : BStore T) :
    ∀ cs, (∀ c ∈ cs, ∀ tid ∈ c.transactions, ∃ t ∈ s.txns, t.id = tid) →
      ∃ l, collectCommits s cs = .ok l := by
  intro cs
  induction cs with
  | nil => intro _; exact ⟨[], rfl⟩
  | cons c cs ih =>
    intro h
    obtain ⟨txs, hr⟩ := resolveTxns_isOk s c.transactions (h c (by simp))
    obtain ⟨rest, hcc⟩ := ih (fun x hx => h x (by simp [hx]))
    exact ⟨⟨c.id, c.time, txs⟩ :: rest,
      by simp [collectCommits, hr, hcc, Bind.bind, Except.bind]⟩

theorem append_state {T : Type} (bl : BLog T) (t : Nat) (d : T) (h : bl.dbOpen = true) :
    (bl.append t d).1.dbOpen = true ∧
    (bl.append t d).1.buffer = bl.buffer ++ [⟨t, d⟩] ∧
    (bl.append t d).1.store = bl.store := by
  simp [BLog.append, h]

theorem commit_success_state {T : Type} (bl : BLog T) (t : Nat) (h : bl.dbOpen = true) :
    (bl.commit t .success).1.dbOpen = true ∧
    (bl.commit t .success).1.buffer = [] ∧
    (bl.commit t .success).1.store.txns
      = bl.store.txns ++ addTxnsFrom (bl.store.txns.length + 1) bl.buffer ∧
    (bl.commit t .success).1.store.commits
      = bl.store.commits ++ [⟨bl.store.commits.length + 1, t,
          (addTxnsFrom (bl.store.txns.length + 1) bl.buffer).map TxnRec.id⟩] := by
  simp [BLog.commit, h]

theorem appendS_state {T : Type} (sl : SLog T) (t : Nat) (d : T) (h : sl.dbOpen = true) :
    (sl.append t d).1.dbOpen = true ∧
    (sl.append t d).1.txns = sl.txns ++ [⟨sl.txns.length + 1, t, d⟩] := by
  simp [SLog.append, h]

theorem runOps_open_data {T : Type} :
    ∀ (ops : List (LogOp T)) (bl : BLog T), bl.dbOpen = true →
      (bl.runOps ops).dbOpen = true ∧
      (bl.runOps ops).store.txns.map TxnRec.data
        = bl.store.txns.map TxnRec.data
          ++ specCommittedData ops (bl.buffer.map PendingTxn.data) := by
  intro ops
  induction ops with
  | nil => intro bl h; simp [BLog.runOps, specCommittedData, h]
  | cons op ops ih =>
    intro bl h
    cases op with
    | app t d =>
      obtain ⟨ho, hb, hst⟩ := append_state bl t d h
      rw [BLog.runOps]
      obtain ⟨h1, h2⟩ := ih _ ho
      refine ⟨h1, ?_⟩
      rw [h2, hb, hst]
      simp [specCommittedData]
    | com t =>
      obtain ⟨ho, hb, ht, hc⟩ := commit_success_state bl t h
      rw [BLog.runOps]
      obtain ⟨h1, h2⟩ := ih _ ho
      refine ⟨h1, ?_⟩
      rw [h2, hb, ht]
      simp [specCommittedData, addTxnsFrom_map_data]

theorem runOps_txnIdsOK {T : Type} :
    ∀ (ops : List (LogOp T)) (bl : BLog T), bl.dbOpen = true → txnIdsOK bl.store.txns →
      txnIdsOK (bl.runOps ops).store.txns := by
  intro ops
  induction ops with
  | nil => intro bl h hw; simpa [BLog.runOps] using hw
  | cons op ops ih =>
    intro bl h hw
    cases op with
    | app t d =>
      obtain ⟨ho, hb, hst⟩ := append_state bl t d h
      rw [BLog.runOps]
      refine ih _ ho ?_
      rw [hst]
      exact hw
    | com t =>
      obtain ⟨ho, hb, ht, hc⟩ := commit_success_state bl t h
      rw [BLog.runOps]
      refine ih _ ho ?_
      rw [ht]
      exact txnIdsOK_commit bl.buffer hw

theorem runAppends_open_data {T : Type} :
    ∀ (ds : List (Nat × T)) (sl : SLog T), sl.dbOpen = true →
      (sl.runAppends ds).dbOpen = true ∧
      (sl.runAppends ds).txns.map TxnRec.data
        = sl.txns.map TxnRec.data ++ ds.map Prod.snd := by
  intro ds
  induction ds with
  | nil => intro sl h; simp [SLog.runAppends, h]
  | cons p ds ih =>
    intro sl h
    obtain ⟨t, d⟩ := p
    obtain ⟨ho, hst⟩ := appendS_state sl t d h
    rw [SLog.runAppends]
    obtain ⟨h1, h2⟩ := ih _ ho
    refine ⟨h1, ?_⟩
    rw [h2, hst]
    simp

theorem runAppends_txnIdsOK {T : Type} :
    ∀ (ds : List (Nat × T)) (sl : SLog T), sl.dbOpen = true → txnIdsOK sl.txns →
      txnIdsOK (sl.runAppends ds).txns := by
  intro ds
  induction ds with
  | nil => intro sl h hw; simpa [SLog.runAppends] using hw
  | cons p ds ih =>
    intro sl h hw
    obtain ⟨t, d⟩ := p
    obtain ⟨ho, hst⟩ := appendS_state sl t d h
    rw [SLog.runAppends]
    refine ih _ ho ?_
    rw [hst]
    unfold txnIdsOK at hw ⊢
    have hsn := map_id_snoc_range' TxnRec.id sl.txns ⟨sl.txns.length + 1, t, d⟩ hw rfl
    simpa using hsn

theorem getSeqRangeTransactions_open_not_closed {T : Type} (bl : BLog T) (a : Int)
    (b : Option Int) (h : bl.dbOpen = true) :
    bl.getSeqRangeTransactions a b ≠ .error .logClosed := by
  rcases mkRange_cases a b with hm | ⟨r, hm⟩ <;>
    simp [BLog.getSeqRangeTransactions, h, hm, Bind.bind, Except.bind]

theorem getSeqRangeTransactionsS_open_not_closed {T : Type} (sl : SLog T) (a : Int)
    (b : Option Int) (h : sl.dbOpen = true) :
    sl.getSeqRangeTransactions a b ≠ .error .logClosed := by
  rcases mkRange_cases a b with hm | ⟨r, hm⟩ <;>
    simp [SLog.getSeqRangeTransactions, h, hm, Bind.bind, Except.bind]

theorem getSeqRangeCommits_open_not_closed {T : Type} (bl : BLog T) (a : Int)
    (b : Option Int) (h : bl.dbOpen = true) :
    bl.getSeqRangeCommits a b ≠ .error .logClosed := by
  by_cases ha : a < 1
  · simp [BLog.getSeqRangeCommits, h, ha]
  · rcases mkRange_cases a b with hm | ⟨r, hm⟩
    · simp [BLog.getSeqRangeCommits, h, ha, hm, Bind.bind, Except.bind]
    · rcases collectCommits_cases bl.store
          (bl.store.commits.filter (fun c => r.mem c.id)) with hc | ⟨l, hc⟩ <;>
        simp [BLog.getSeqRangeCommits, h, ha, hm, hc, Bind.bind, Except.bind]

/-- Claim C4: in both variants the lifecycle error contract holds in every
state: open() fails with AlreadyOpen exactly when the log is open, close()
fails with AlreadyClosed exactly when it is closed, clear() fails with
CannotClearWhileOpen exactly when it is open, and every data-access
operation (append, commit, counts, replay, the range queries) fails with
LogClosed exactly when the log is closed. -/
theorem C4_lifecycle_contract (T : Type) (bl : BLog T) (sl : SLog T) (now : Nat) (d : T)
    (f : T → Option Unit) (a : Int) (b : Option Int) (o : StoreOutcome) :
    (bl.openLog.2 = some .alreadyOpen ↔ bl.dbOpen = true) ∧
    (bl.close.2 = some .alreadyClosed ↔ bl.dbOpen = false) ∧
    (bl.clear.2 = some .cannotClearWhileOpen ↔ bl.dbOpen = true) ∧
    ((bl.append now d).2 = some .logClosed ↔ bl.dbOpen = false) ∧
    ((bl.commit now o).2 = some .logClosed ↔ bl.dbOpen = false) ∧
    (bl.countTransactions = .error .logClosed ↔ bl.dbOpen = false) ∧
    (bl.countCommits = .error .logClosed ↔ bl.dbOpen = false) ∧
    (bl.replay f = .error .logClosed ↔ bl.dbOpen = false) ∧
    (bl.getSeqRangeTransactions a b = .error .logClosed ↔ bl.dbOpen = false) ∧
    (bl.getSeqRangeCommits a b = .error .logClosed ↔ bl.dbOpen = false) ∧
    (sl.openLog.2 = some .alreadyOpen ↔ sl.dbOpen = true) ∧
    (sl.close.2 = some .alreadyClosed ↔ sl.dbOpen = false) ∧
    (sl.clear.2 = some .cannotClearWhileOpen ↔ sl.dbOpen = true) ∧
    ((sl.append now d).2 = some .logClosed ↔ sl.dbOpen = false) ∧
    (sl.countTransactions = .error .logClosed ↔ sl.dbOpen = false) ∧
    (sl.replay f = .error .logClosed ↔ sl.dbOpen = false) ∧
    (sl.getSeqRangeTransactions a b = .error .logClosed ↔ sl.dbOpen = false) := by
  refine ⟨?_, ?_, ?_, ?_, ?_, ?_, ?_, ?_, ?_, ?_, ?_, ?_, ?_, ?_, ?_, ?_, ?_⟩
  · cases hb : bl.dbOpen <;> simp [BLog.openLog, hb]
  · cases hb : bl.dbOpen <;> simp [BLog.close, hb]
  · cases hb : bl.dbOpen <;> simp [BLog.clear, hb]
  · cases hb : bl.dbOpen <;> simp [BLog.append, hb]
  · cases hb : bl.dbOpen
    · simp [BLog.commit, hb]
    · cases o <;> simp [BLog.commit, hb]
  · cases hb : bl.dbOpen <;> simp [BLog.countTransactions, hb]
  · cases hb : bl.dbOpen <;> simp [BLog.countCommits, hb]
  · cases hb : bl.dbOpen <;> simp [BLog.replay, hb]
  · cases hb : bl.dbOpen
    · simp [BLog.getSeqRangeTransactions, hb]
    · exact iff_of_false (getSeqRangeTransactions_open_not_closed bl a b hb) (by simp)
  · cases hb : bl.dbOpen
    · simp [BLog.getSeqRangeCommits, hb]
    · exact iff_of_false (getSeqRangeCommits_open_not_closed bl a b hb) (by simp)
  · cases hs : sl.dbOpen <;> simp [SLog.openLog, hs]
  · cases hs : sl.dbOpen <;> simp [SLog.close, hs]
  · cases hs : sl.dbOpen <;> simp [SLog.clear, hs]
  · cases hs : sl.dbOpen <;> simp [SLog.append, hs]
  · cases hs : sl.dbOpen <;> simp [SLog.countTransactions, hs]
  · cases hs : sl.dbOpen <;> simp [SLog.replay, hs]
  · cases hs : sl.dbOpen
    · simp [SLog.getSeqRangeTransactions, hs]
    · exact iff_of_false (getSeqRangeTransactionsS_open_not_closed sl a b hs) (by simp)

/-- Claim C10: a provided finish id of 0 is falsy in the source's range
selection, so in both variants' getSeqRangeTransactions and in the batched
getSeqRangeCommits it is treated exactly like an omitted finish: the scan
uses the open-ended lower-bound range rather than the empty inclusive
range. -/
theorem C10_falsy_finish (T : Type) (bl : BLog T) (sl : SLog T) (a : Int) :
    bl.getSeqRangeTransactions a (some 0) = bl.getSeqRangeTransactions a none ∧
    sl.getSeqRangeTransactions a (some 0) = sl.getSeqRangeTransactions a none ∧
    bl.getSeqRangeCommits a (some 0) = bl.getSeqRangeCommits a none := by
  refine ⟨?_, ?_, ?_⟩ <;>
    simp [BLog.getSeqRangeTransactions, SLog.getSeqRangeTransactions,
      BLog.getSeqRangeCommits, mkRange]

/-- Claim C1 counterexample: on an open batched log with one buffered entry,
when the store transaction fails at final completion (failDone: all add
requests resolved but tx.done rejects), commit() fails with the store's
InvalidState abort error, not with the FailedToCommitTransactions
(CommitFailed) error the claim requires for every failure. -/
theorem C1_counterexample :
    BLog.commit (⟨true, [⟨3, 42⟩], ⟨[], []⟩⟩ : BLog Nat) 9 .failDone
      = (⟨true, [⟨3, 42⟩], ⟨[], []⟩⟩, some .abortInvalidState) ∧
    LogErr.abortInvalidState ≠ LogErr.failedToCommitTransactions :=
  ⟨rfl, by decide⟩

/-- Claim C1 as amended: commit() succeeds exactly when the store transaction
succeeds; every failure leaves the durable store and the in-memory buffer
unchanged (so the buffer is cleared exactly when the commit succeeded), and
the failure surfaces as FailedToCommitTransactions when the store
transaction could not be created, but as the store's InvalidState abort
error when the store transaction aborted at completion. -/
theorem C1_commit_atomicity (T : Type) (bl : BLog T) (now : Nat) (o : StoreOutcome)
    (h : bl.dbOpen = true) : CommitAtomicSpec T bl now o := by
  cases o <;>
    simp [CommitAtomicSpec, BLog.commit, h, addTxnsFrom_length]

/-- Witness for C1: the amended theorem applied to a concrete open log with a
non-empty buffer and the failDone outcome. -/
theorem C1_commit_atomicity_witness :
    ((⟨true, [⟨3, 42⟩], ⟨[], []⟩⟩ : BLog Nat).dbOpen = true) ∧
    CommitAtomicSpec Nat ⟨true, [⟨3, 42⟩], ⟨[], []⟩⟩ 9 .failDone :=
  ⟨rfl, C1_commit_atomicity Nat ⟨true, [⟨3, 42⟩], ⟨[], []⟩⟩ 9 .failDone rfl⟩

/-- Claim C2 counterexample: open a fresh batched log, append 42, close,
reopen the same instance and commit: the entry appended before the close is
persisted (countTransactions is 1 and the stored data is [42]), so close()
did not discard the buffered entry as the claim states. -/
theorem C2_counterexample :
    (((BLog.fresh Nat).openLog.1.append 1 42).1.close.1.openLog.1.commit 2
        .success).1.countTransactions = .ok 1 ∧
    (((BLog.fresh Nat).openLog.1.append 1 42).1.close.1.openLog.1.commit 2
        .success).1.store.txns.map TxnRec.data = [42] ∧
    (1 : Nat) ≠ 0 :=
  ⟨rfl, rfl, by decide⟩

/-- Claim C2 as amended: close() on an open log succeeds and commits nothing
(the durable store is untouched), but the in-memory buffer is not discarded:
it survives in the instance, and reopening the same instance and committing
persists exactly the entries that were buffered before the close. -/
theorem C2_close_keeps_buffer (T : Type) (bl : BLog T) (now : Nat)
    (h : bl.dbOpen = true) : CloseKeepsBufferSpec T bl now := by
  have hc : bl.close = ({ bl with dbOpen := false }, none) := by
    simp [BLog.close, h]
  refine ⟨by simp [hc], by simp [hc], by simp [hc], ?_⟩
  rw [hc]
  simp [BLog.openLog, BLog.commit, addTxnsFrom_map_data]

/-- Witness for C2: the amended theorem applied to a concrete open log with a
non-empty buffer. -/
theorem C2_close_keeps_buffer_witness :
    ((⟨true, [⟨1, 42⟩], ⟨[], []⟩⟩ : BLog Nat).dbOpen = true) ∧
    CloseKeepsBufferSpec Nat ⟨true, [⟨1, 42⟩], ⟨[], []⟩⟩ 2 :=
  ⟨rfl, C2_close_keeps_buffer Nat ⟨true, [⟨1, 42⟩], ⟨[], []⟩⟩ 2 rfl⟩

/-- Claim C3 counterexample: on an open log with an empty store,
getSeqRangeTransactions with start 0 (below 1) returns an ok result in both
variants instead of failing with InvalidSequenceId. -/
theorem C3_counterexample :
    BLog.getSeqRangeTransactions (⟨true, [], ⟨[], []⟩⟩ : BLog Nat) 0 none = .ok [] ∧
    SLog.getSeqRangeTransactions (⟨true, []⟩ : SLog Nat) 0 none = .ok [] ∧
    (Except.ok ([] : List (TxnRec Nat))
      ≠ (Except.error .invalidSequenceId : Except LogErr (List (TxnRec Nat)))) :=
  ⟨rfl, rfl, fun h => Except.noConfusion h⟩

/-- Claim C3 as amended: getSeqRangeTransactions validates nothing about the
start id in either variant: on an open log a start below 1 succeeds, and with
the finish omitted it returns every stored record (all stored ids are at
least 1); only getSeqRangeCommits rejects a start below 1 with
InvalidSequenceId. -/
theorem C3_no_start_validation (T : Type) (bl : BLog T) (sl : SLog T) (a : Int)
    (hb : bl.dbOpen = true) (hs : sl.dbOpen = true)
    (hib : ∀ t ∈ bl.store.txns, 1 ≤ t.id) (his : ∀ t ∈ sl.txns, 1 ≤ t.id)
    (ha : a < 1) : NoStartValidationSpec T bl sl a := by
  refine ⟨?_, ?_, ?_⟩
  · simp [BLog.getSeqRangeTransactions, hb, mkRange, Bind.bind, Except.bind]
    intro t ht
    have h1 := hib t ht
    simp [KeyRange.mem]
    omega
  · simp [SLog.getSeqRangeTransactions, hs, mkRange, Bind.bind, Except.bind]
    intro t ht
    have h1 := his t ht
    simp [KeyRange.mem]
    omega
  · simp [BLog.getSeqRangeCommits, hb, ha]

/-- Witness for C3: the amended theorem applied to concrete open logs each
holding one record of id 1, with start 0. -/
theorem C3_no_start_validation_witness :
    ((⟨true, [], ⟨[⟨1, 0, 5⟩], []⟩⟩ : BLog Nat).dbOpen = true) ∧
    ((⟨true, [⟨1, 0, 5⟩]⟩ : SLog Nat).dbOpen = true) ∧
    (∀ t ∈ (⟨true, [], ⟨[⟨1, 0, 5⟩], []⟩⟩ : BLog Nat).store.txns, 1 ≤ t.id) ∧
    (∀ t ∈ (⟨true, [⟨1, 0, 5⟩]⟩ : SLog Nat).txns, 1 ≤ t.id) ∧
    ((0 : Int) < 1) ∧
    NoStartValidationSpec Nat ⟨true, [], ⟨[⟨1, 0, 5⟩], []⟩⟩ ⟨true, [⟨1, 0, 5⟩]⟩ 0 :=
  ⟨rfl, rfl, by simp, by simp, by decide,
    C3_no_start_validation Nat ⟨true, [], ⟨[⟨1, 0, 5⟩], []⟩⟩ ⟨true, [⟨1, 0, 5⟩]⟩ 0
      rfl rfl (by simp) (by simp) (by decide)⟩

/-- Claim C5: in both variants replay visits the persisted transactions in
strictly increasing id order, invoking the callback exactly once per record
with that record's data; the observed data sequence equals the append order
across all committed appends (all appends, for the simple variant); and a
throwing callback propagates its exception and aborts the remaining scan. -/
theorem C5_replay_contract (T E : Type) (bl : BLog T) (sl : SLog T) (f g : T → Option E)
    (ops : List (LogOp T)) (ds : List (Nat × T))
    (hb : bl.dbOpen = true) (hs : sl.dbOpen = true)
    (hwb : txnIdsOK bl.store.txns) (hws : txnIdsOK sl.txns)
    (hg : ∀ t, g t = none) : ReplaySpec T E bl sl f g ops ds := by
  have hfresh : ((BLog.fresh T).openLog.1).dbOpen = true := by
    simp [BLog.fresh, BLog.openLog]
  have hfreshS : ((SLog.fresh T).openLog.1).dbOpen = true := by
    simp [SLog.fresh, SLog.openLog]
  obtain ⟨hro, hrd⟩ := runOps_open_data ops ((BLog.fresh T).openLog.1) hfresh
  obtain ⟨hso, hsd⟩ := runAppends_open_data ds ((SLog.fresh T).openLog.1) hfreshS
  refine ⟨?_, ?_, ?_, ?_, ?_, ?_, ?_, ?_, ?_, ?_⟩
  · simp [BLog.replay, hb, replayCalls_no_throw g hg]
  · intro tr e h
    have h2 : replayCalls f bl.store.txns = (tr, e) := by
      simpa [BLog.replay, hb] using h
    obtain ⟨k, hk⟩ := replayCalls_take f bl.store.txns
    refine ⟨k, ?_, pairwise_take_map TxnRec.id bl.store.txns k hwb⟩
    rw [← hk, h2]
  · intro tr e0 h
    have h2 : replayCalls f bl.store.txns = (tr, some e0) := by
      simpa [BLog.replay, hb] using h
    exact replayCalls_throw f bl.store.txns tr e0 h2
  · simp [SLog.replay, hs, replayCalls_no_throw g hg]
  · intro tr e h
    have h2 : replayCalls f sl.txns = (tr, e) := by
      simpa [SLog.replay, hs] using h
    obtain ⟨k, hk⟩ := replayCalls_take f sl.txns
    refine ⟨k, ?_, pairwise_take_map TxnRec.id sl.txns k hws⟩
    rw [← hk, h2]
  · intro tr e0 h
    have h2 : replayCalls f sl.txns = (tr, some e0) := by
      simpa [SLog.replay, hs] using h
    exact replayCalls_throw f sl.txns tr e0 h2
  · have hd : ((BLog.fresh T).openLog.1.runOps ops).store.txns.map TxnRec.data
        = specCommittedData ops [] := by
      rw [hrd]
      simp [BLog.fresh, BLog.openLog]
    simp [BLog.replay, hro, replayCalls_no_throw g hg, hd]
  · exact runOps_txnIdsOK ops _ hfresh
      (by simp [BLog.fresh, BLog.openLog, txnIdsOK, List.range'])
  · have hd : ((SLog.fresh T).openLog.1.runAppends ds).txns.map TxnRec.data
        = ds.map Prod.snd := by
      rw [hsd]
      simp [SLog.fresh, SLog.openLog]
    simp [SLog.replay, hso, replayCalls_no_throw g hg, hd]
  · exact runAppends_txnIdsOK ds _ hfreshS
      (by simp [SLog.fresh, SLog.openLog, txnIdsOK, List.range'])

/-- Witness for C5: the theorem applied to concrete well-formed open logs, a
callback that always throws, a callback that never throws, and a concrete
session of appends and commits. -/
theorem C5_replay_contract_witness :
    ((⟨true, [], ⟨[⟨1, 0, 10⟩, ⟨2, 0, 20⟩], []⟩⟩ : BLog Nat).dbOpen = true) ∧
    ((⟨true, [⟨1, 0, 10⟩]⟩ : SLog Nat).dbOpen = true) ∧
    txnIdsOK (⟨true, [], ⟨[⟨1, 0, 10⟩, ⟨2, 0, 20⟩], []⟩⟩ : BLog Nat).store.txns ∧
    txnIdsOK (⟨true, [⟨1, 0, 10⟩]⟩ : SLog Nat).txns ∧
    (∀ t : Nat, (fun _ : Nat => (none : Option Unit)) t = none) ∧
    ReplaySpec Nat Unit ⟨true, [], ⟨[⟨1, 0, 10⟩, ⟨2, 0, 20⟩], []⟩⟩ ⟨true, [⟨1, 0, 10⟩]⟩
      (fun _ => some ()) (fun _ => none) [.app 0 7, .com 1] [(0, 7)] :=
  ⟨rfl, rfl, by decide, by decide, fun t => rfl,
    C5_replay_contract Nat Unit ⟨true, [], ⟨[⟨1, 0, 10⟩, ⟨2, 0, 20⟩], []⟩⟩
      ⟨true, [⟨1, 0, 10⟩]⟩ (fun _ => some ()) (fun _ => none) [.app 0 7, .com 1] [(0, 7)]
      rfl rfl (by decide) (by decide) (fun t => rfl)⟩

/-- Claim C6 counterexample: with one stored transaction of id 1, the bounded
call with start 1 and finish 0 returns that record in both variants although
no id satisfies 1 ≤ id ≤ 0 (the falsy finish selects the open-ended range),
and the bounded call with start 2 and finish 1 fails with the store's
DataError instead of returning the empty list. -/
theorem C6_counterexample :
    BLog.getSeqRangeTransactions (⟨true, [], ⟨[⟨1, 5, 42⟩], []⟩⟩ : BLog Nat) 1 (some 0)
      = .ok [⟨1, 5, 42⟩] ∧
    SLog.getSeqRangeTransactions (⟨true, [⟨1, 5, 42⟩]⟩ : SLog Nat) 1 (some 0)
      = .ok [⟨1, 5, 42⟩] ∧
    BLog.getSeqRangeTransactions (⟨true, [], ⟨[⟨1, 5, 42⟩], []⟩⟩ : BLog Nat) 2 (some 1)
      = .error .dataError ∧
    ((⟨1, 5, 42⟩ : TxnRec Nat) :: [] ≠ ([] : List (TxnRec Nat))) :=
  ⟨rfl, rfl, rfl, by simp⟩

/-- Claim C6 as amended: on an open well-formed log with 1 ≤ a, a bounded
call with a ≤ b returns exactly the stored transactions with a ≤ id ≤ b in
ascending id order, and an omitted finish returns exactly those with id ≥ a
in ascending id order, in both variants; a finish of 0 instead selects the
open-ended range, and a provided finish below the start raises the store's
DataError. -/
theorem C6_txn_range (T : Type) (bl : BLog T) (sl : SLog T) (a b : Int)
    (hb : bl.dbOpen = true) (hs : sl.dbOpen = true)
    (hwb : txnIdsOK bl.store.txns) (hws : txnIdsOK sl.txns)
    (ha : 1 ≤ a) : TxnRangeSpec T bl sl a b := by
  refine ⟨?_, ?_, ?_, ?_⟩
  · intro hab
    have hb0 : ¬ (b = 0) := by omega
    refine ⟨bl.store.txns.filter (fun t => KeyRange.mem (.bound a b) t.id), ?_, ?_, ?_⟩
    · simp [BLog.getSeqRangeTransactions, hb, mkRange, hb0, hab, Bind.bind, Except.bind]
    · intro t
      simp [List.mem_filter, KeyRange.mem, and_assoc]
    · exact pairwise_filter_map TxnRec.id bl.store.txns _ hwb
  · refine ⟨bl.store.txns.filter (fun t => KeyRange.mem (.lowerBound a) t.id), ?_, ?_, ?_⟩
    · simp [BLog.getSeqRangeTransactions, hb, mkRange, Bind.bind, Except.bind]
    · intro t
      simp [List.mem_filter, KeyRange.mem]
    · exact pairwise_filter_map TxnRec.id bl.store.txns _ hwb
  · intro hab
    have hb0 : ¬ (b = 0) := by omega
    refine ⟨sl.txns.filter (fun t => KeyRange.mem (.bound a b) t.id), ?_, ?_, ?_⟩
    · simp [SLog.getSeqRangeTransactions, hs, mkRange, hb0, hab, Bind.bind, Except.bind]
    · intro t
      simp [List.mem_filter, KeyRange.mem, and_assoc]
    · exact pairwise_filter_map TxnRec.id sl.txns _ hws
  · refine ⟨sl.txns.filter (fun t => KeyRange.mem (.lowerBound a) t.id), ?_, ?_, ?_⟩
    · simp [SLog.getSeqRangeTransactions, hs, mkRange, Bind.bind, Except.bind]
    · intro t
      simp [List.mem_filter, KeyRange.mem]
    · exact pairwise_filter_map TxnRec.id sl.txns _ hws

/-- Witness for C6: the amended theorem applied to concrete open logs holding
records of ids 1 and 2, with start 1 and finish 2. -/
theorem C6_txn_range_witness :
    ((⟨true, [], ⟨[⟨1, 0, 10⟩, ⟨2, 0, 20⟩], []⟩⟩ : BLog Nat).dbOpen = true) ∧
    ((⟨true, [⟨1, 0, 10⟩, ⟨2, 0, 20⟩]⟩ : SLog Nat).dbOpen = true) ∧
    txnIdsOK (⟨true, [], ⟨[⟨1, 0, 10⟩, ⟨2, 0, 20⟩], []⟩⟩ : BLog Nat).store.txns ∧
    txnIdsOK (⟨true, [⟨1, 0, 10⟩, ⟨2, 0, 20⟩]⟩ : SLog Nat).txns ∧
    ((1 : Int) ≤ 1) ∧
    TxnRangeSpec Nat ⟨true, [], ⟨[⟨1, 0, 10⟩, ⟨2, 0, 20⟩], []⟩⟩
      ⟨true, [⟨1, 0, 10⟩, ⟨2, 0, 20⟩]⟩ 1 2 :=
  ⟨rfl, rfl, by decide, by decide, by decide,
    C6_txn_range Nat ⟨true, [], ⟨[⟨1, 0, 10⟩, ⟨2, 0, 20⟩], []⟩⟩
      ⟨true, [⟨1, 0, 10⟩, ⟨2, 0, 20⟩]⟩ 1 2 rfl rfl (by decide) (by decide) (by decide)⟩

/-- Claim C7 counterexample: with one stored commit of id 1 (and no
referenced transactions), the call with start 1 and finish 0 returns that
commit although no id satisfies 1 ≤ id ≤ 0: a falsy finish selects the
open-ended range instead of the inclusive range the claim requires. -/
theorem C7_counterexample :
    BLog.getSeqRangeCommits (⟨true, [], ⟨[], [⟨1, 7, []⟩]⟩⟩ : BLog Nat) 1 (some 0)
      = .ok [⟨1, 7, []⟩] ∧
    ((⟨1, 7, []⟩ : CommitInfo Nat) :: [] ≠ ([] : List (CommitInfo Nat))) :=
  ⟨rfl, by simp⟩

/-- Claim C7 as amended: getSeqRangeCommits fails with InvalidSequenceId
whenever start < 1; otherwise, whenever the key range is constructed (an
omitted or falsy finish giving the open-ended range), if every transaction id
referenced by an in-range commit resolves, the call returns one CommitInfo
per in-range commit in ascending commit-id order with the referenced ids
resolved to full records in the commit's original order, and if some
in-range commit references an unresolvable id the call fails with the
transaction-not-found error rather than returning a partial result. -/
theorem C7_commits_range (T : Type) (bl : BLog T) (a : Int) (b : Option Int)
    (hopen : bl.dbOpen = true)
    (hwc : bl.store.commits.map CommitRec.id = List.range' 1 bl.store.commits.length) :
    CommitsRangeSpec T bl a b := by
  constructor
  · intro ha
    simp [BLog.getSeqRangeCommits, hopen, ha]
  · intro ha r hr
    have hnot : ¬ (a < 1) := by omega
    constructor
    · intro hres
      have hres2 : ∀ c ∈ bl.store.commits.filter (fun c => r.mem c.id),
          ∀ tid ∈ c.transactions, ∃ t ∈ bl.store.txns, t.id = tid := by
        intro c hc
        exact hres c (List.mem_filter.mp hc).1 (List.mem_filter.mp hc).2
      obtain ⟨l, hl⟩ := collectCommits_isOk bl.store _ hres2
      obtain ⟨hm, hrec⟩ := collectCommits_ok bl.store _ l hl
      refine ⟨l, ?_, hm, ?_, ?_⟩
      · simp [BLog.getSeqRangeCommits, hopen, hnot, hr, hl, Bind.bind, Except.bind]
      · rw [hm]
        exact pairwise_filter_map CommitRec.id bl.store.commits _ hwc
      · intro ci hci
        obtain ⟨c, hc, rest⟩ := hrec ci hci
        exact ⟨c, (List.mem_filter.mp hc).1, rest⟩
    · rintro ⟨c, hc, hcr, tid, htid, hbad⟩
      rcases collectCommits_cases bl.store
          (bl.store.commits.filter (fun c => r.mem c.id)) with hcc | ⟨l, hcc⟩
      · simp [BLog.getSeqRangeCommits, hopen, hnot, hr, hcc, Bind.bind, Except.bind]
      · exfalso
        obtain ⟨t, ht, hid⟩ := collectCommits_resolvable bl.store _ l hcc c
          (List.mem_filter.mpr ⟨hc, hcr⟩) tid htid
        exact hbad t ht hid

/-- Witness for C7: the amended theorem applied to a concrete open log with
one commit referencing the stored transaction of id 1, with an omitted
finish. -/
theorem C7_commits_range_witness :
    ((⟨true, [], ⟨[⟨1, 0, 9⟩], [⟨1, 3, [1]⟩]⟩⟩ : BLog Nat).dbOpen = true) ∧
    ((⟨true, [], ⟨[⟨1, 0, 9⟩], [⟨1, 3, [1]⟩]⟩⟩ : BLog Nat).store.commits.map CommitRec.id
      = List.range' 1 (⟨true, [], ⟨[⟨1, 0, 9⟩], [⟨1, 3, [1]⟩]⟩⟩ : BLog Nat).store.commits.length) ∧
    CommitsRangeSpec Nat ⟨true, [], ⟨[⟨1, 0, 9⟩], [⟨1, 3, [1]⟩]⟩⟩ 1 none :=
  ⟨rfl, by decide,
    C7_commits_range Nat ⟨true, [], ⟨[⟨1, 0, 9⟩], [⟨1, 3, [1]⟩]⟩⟩ 1 none rfl (by decide)⟩

/-- Claim C8: commit() on an open batched log with an empty buffer succeeds
and produces one commit record whose transactions list is empty; afterwards
countCommits is one greater than before and countTransactions is
unchanged. -/
theorem C8_empty_buffer_commit (T : Type) (bl : BLog T) (now : Nat)
    (h : bl.dbOpen = true) (hbuf : bl.buffer = []) : EmptyCommitSpec T bl now := by
  simp [EmptyCommitSpec, BLog.commit, BLog.countCommits, BLog.countTransactions,
    h, hbuf, addTxnsFrom]

/-- Witness for C8: the theorem applied to a concrete open log with one
stored transaction, one stored commit and an empty buffer. -/
theorem C8_empty_buffer_commit_witness :
    ((⟨true, [], ⟨[⟨1, 0, 5⟩], [⟨1, 2, [1]⟩]⟩⟩ : BLog Nat).dbOpen = true) ∧
    ((⟨true, [], ⟨[⟨1, 0, 5⟩], [⟨1, 2, [1]⟩]⟩⟩ : BLog Nat).buffer = []) ∧
    EmptyCommitSpec Nat ⟨true, [], ⟨[⟨1, 0, 5⟩], [⟨1, 2, [1]⟩]⟩⟩ 4 :=
  ⟨rfl, rfl,
    C8_empty_buffer_commit Nat ⟨true, [], ⟨[⟨1, 0, 5⟩], [⟨1, 2, [1]⟩]⟩⟩ 4 rfl rfl⟩

/-- Claim C9: for a closed instance of either variant, open-close-open yields
an instance indistinguishable via countTransactions and replay from a
freshly constructed instance over the same durable content that is opened:
the persisted contents observed by counting and replaying are identical. -/
theorem C9_roundtrip (T : Type) (bl : BLog T) (sl : SLog T)
    (hb : bl.dbOpen = false) (hs : sl.dbOpen = false) : RoundTripSpec T bl sl := by
  refine ⟨?_, ?_, ?_, ?_⟩
  · intro E f
    simp [BLog.openLog, BLog.close, BLog.replay, BLog.freshOn, hb]
  · simp [BLog.openLog, BLog.close, BLog.countTransactions, BLog.freshOn, hb]
  · intro E f
    simp [SLog.openLog, SLog.close, SLog.replay, SLog.freshOn, hs]
  · simp [SLog.openLog, SLog.close, SLog.countTransactions, SLog.freshOn, hs]

/-- Witness for C9: the theorem applied to concrete closed instances with
persisted content (the batched one also holding a leftover buffer entry). -/
theorem C9_roundtrip_witness :
    ((⟨false, [⟨1, 3⟩], ⟨[⟨1, 0, 3⟩], []⟩⟩ : BLog Nat).dbOpen = false) ∧
    ((⟨false, [⟨1, 0, 3⟩]⟩ : SLog Nat).dbOpen = false) ∧
    RoundTripSpec Nat ⟨false, [⟨1, 3⟩], ⟨[⟨1, 0, 3⟩], []⟩⟩ ⟨false, [⟨1, 0, 3⟩]⟩ :=
  ⟨rfl, rfl,
    C9_roundtrip Nat ⟨false, [⟨1, 3⟩], ⟨[⟨1, 0, 3⟩], []⟩⟩ ⟨false, [⟨1, 0, 3⟩]⟩ rfl rfl⟩
